import Mathlib

/-!
# Verification of the RTMR3 measurement-replay core (src/rtmr3.tsx)

Shallow embedding of the measurement-replay engine of the RTMR3 calculator:
the byte/hex codec (`hexToUint8Array`, `uint8ArrayToHex`), the canonical
manifest hasher (`getComposeHash`), the event digest builder (`calcDigest`),
the register replay engine (`rtmrReplay`) and the orchestrator
(`calculateValues`).

Modelling conventions:
* A byte sequence (JS `Uint8Array`) is a `List Nat` whose entries are < 256
  wherever that matters; a JS string is a Lean `String`.
* The platform primitives the code calls (`crypto.subtle.digest` with
  SHA-256/SHA-384, `TextEncoder`, `JSON.parse`, `JSON.stringify`) are
  modelled executably from their public specifications (FIPS 180-4,
  UTF-8, ECMA-404/ECMA-262).
* The code's `try`/`catch` blocks guard only platform-primitive failures,
  which cannot occur in the pure model, so the error branches are dead here.
* All definitions use structural (or fuel-based) recursion so that the
  kernel can evaluate them on concrete inputs.
-/

namespace RTMR3

/-! ## Byte/hex codec (src/rtmr3.tsx lines 5-18) -/

/-- `INIT_MR` from the source: `"0".repeat(96)`. -/
def INIT_MR : String := String.mk (List.replicate 96 '0')

/-- A character matched by the regex class `[\dA-F]` with the `i` flag:
a decimal digit or a hex letter of either case. -/
def isHexDigitChar (c : Char) : Bool :=
  c.isDigit || ('A' ≤ c && c ≤ 'F') || ('a' ≤ c && c ≤ 'f')

/-- `parseInt` value of one hex digit character. -/
def hexDigitVal (c : Char) : Nat :=
  if c.isDigit then c.toNat - 48
  else if 'a' ≤ c && c ≤ 'f' then c.toNat - 87
  else if 'A' ≤ c && c ≤ 'F' then c.toNat - 55
  else 0

/-- Scanner of `hex.match(/[\dA-F]{2}/gi)` combined with
`parseInt(s, 16)`: walk left to right; whenever the two characters at the
current position are both hex digits emit their byte and advance by two,
otherwise advance by one.  The fuel argument only bounds the recursion and
is in surplus whenever it starts at the list length. -/
def hexPairsGo : Nat → List Char → List Nat
  | 0, _ => []
  | _ + 1, [] => []
  | _ + 1, [_] => []
  | fuel + 1, c1 :: c2 :: rest =>
    if isHexDigitChar c1 && isHexDigitChar c2 then
      (16 * hexDigitVal c1 + hexDigitVal c2) :: hexPairsGo fuel rest
    else
      hexPairsGo fuel (c2 :: rest)

/-- `hexToUint8Array` from the source (lines 8-11). -/
def hexToUint8Array (hex : String) : List Nat :=
  hexPairsGo hex.data.length hex.data

/-- The character JS uses for one base-16 digit in `Number.prototype.toString(16)`. -/
def hexDigitChar (n : Nat) : Char :=
  if n < 10 then Char.ofNat (48 + n) else Char.ofNat (87 + n)

/-- Digits of `n.toString(16)` (non-negative integer case), with fuel. -/
def jsToStringBase16Go : Nat → Nat → List Char
  | 0, _ => []
  | fuel + 1, n =>
    if n < 16 then [hexDigitChar n]
    else jsToStringBase16Go fuel (n / 16) ++ [hexDigitChar (n % 16)]

/-- `n.toString(16)` for a non-negative integer `n`. -/
def jsToStringBase16 (n : Nat) : List Char := jsToStringBase16Go (n + 1) n

/-- `String.prototype.padStart(2, "0")`. -/
def padStart2 (l : List Char) : List Char := List.replicate (2 - l.length) '0' ++ l

/-- `uint8ArrayToHex` from the source (lines 14-18):
`Array.from(a).map(b => b.toString(16).padStart(2, "0")).join("")`. -/
def uint8ArrayToHex (a : List Nat) : String :=
  String.join (a.map (fun b => String.mk (padStart2 (jsToStringBase16 b))))

/-! ## TypedArray.set and DataView.setUint32 -/

/-- `dst.set(src, off)` on typed arrays: overwrite `src.length` entries of
`dst` starting at `off` (always in range where the source uses it). -/
def tsetAt (dst : List Nat) (off : Nat) (src : List Nat) : List Nat :=
  dst.take off ++ src ++ dst.drop (off + src.length)

/-- The 4 bytes written by `new DataView(buf).setUint32(0, v, true)`
(little-endian byte order). -/
def setUint32LE (v : Nat) : List Nat :=
  [v % 256, v / 256 % 256, v / 65536 % 256, v / 16777216 % 256]

/-! ## TextEncoder (UTF-8) -/

/-- UTF-8 encoding of one Unicode scalar value. -/
def utf8EncodeCodepoint (n : Nat) : List Nat :=
  if n < 128 then [n]
  else if n < 2048 then [192 + n / 64, 128 + n % 64]
  else if n < 65536 then [224 + n / 4096, 128 + n / 64 % 64, 128 + n % 64]
  else [240 + n / 262144, 128 + n / 4096 % 64, 128 + n / 64 % 64, 128 + n % 64]

/-- `new TextEncoder().encode(s)` as a byte list. -/
def utf8Bytes (s : String) : List Nat := s.data.flatMap (fun c => utf8EncodeCodepoint c.toNat)

/-! ## SHA-2 (FIPS 180-4): the `crypto.subtle.digest` primitives

The two digest algorithms the source requests (`"SHA-256"`, `"SHA-384"`)
are implemented from FIPS 180-4.  The round constants and initial hash
values are derived, as the standard defines them, from the fractional
parts of square and cube roots of the first primes (computed here with
exact integer root extraction), rather than transcribed tables. -/

namespace SHA2

/-- Binary-search step for integer square root: largest `r` with `r*r ≤ n`. -/
def isqrtGo (n : Nat) : Nat → Nat → Nat → Nat
  | 0, lo, _ => lo
  | fuel + 1, lo, hi =>
    if hi ≤ lo + 1 then lo
    else
      let mid := (lo + hi) / 2
      if mid * mid ≤ n then isqrtGo n fuel mid hi else isqrtGo n fuel lo mid

/-- Integer square root. -/
def isqrt (n : Nat) : Nat := isqrtGo n 300 0 (n + 1)

/-- Binary-search step for integer cube root: largest `r` with `r^3 ≤ n`. -/
def icbrtGo (n : Nat) : Nat → Nat → Nat → Nat
  | 0, lo, _ => lo
  | fuel + 1, lo, hi =>
    if hi ≤ lo + 1 then lo
    else
      let mid := (lo + hi) / 2
      if mid * mid * mid ≤ n then icbrtGo n fuel mid hi else icbrtGo n fuel lo mid

/-- Integer cube root. -/
def icbrt (n : Nat) : Nat := icbrtGo n 300 0 (n + 1)

/-- Primality by trial division (the needed primes are below 500). -/
def isPrimeNat (n : Nat) : Bool :=
  2 ≤ n && (List.range n).all (fun d => d < 2 || n % d != 0)

/-- The first `k` primes (enough for the 80 primes below 500). -/
def firstPrimes (k : Nat) : List Nat :=
  ((List.range 500).filter isPrimeNat).take k

/-- SHA-256 round constants: first 32 bits of the fractional parts of the
cube roots of the first 64 primes. -/
def K256 : List Nat := (firstPrimes 64).map (fun p => icbrt (p * 2 ^ 96) % 2 ^ 32)

/-- SHA-256 initial hash: first 32 bits of the fractional parts of the
square roots of the first 8 primes. -/
def IV256 : List Nat := (firstPrimes 8).map (fun p => isqrt (p * 2 ^ 64) % 2 ^ 32)

/-- SHA-512/384 round constants: first 64 bits of the fractional parts of
the cube roots of the first 80 primes. -/
def K512 : List Nat := (firstPrimes 80).map (fun p => icbrt (p * 2 ^ 192) % 2 ^ 64)

/-- SHA-384 initial hash: first 64 bits of the fractional parts of the
square roots of the 9th through 16th primes. -/
def IV384 : List Nat := ((firstPrimes 16).drop 8).map (fun p => isqrt (p * 2 ^ 128) % 2 ^ 64)

/-- The eight working variables of the compression function. -/
structure St where
  a : Nat
  b : Nat
  c : Nat
  d : Nat
  e : Nat
  f : Nat
  g : Nat
  h : Nat

/-- Parameters distinguishing the members of the SHA-2 family. -/
structure Config where
  wbits : Nat
  lenBytes : Nat
  outWords : Nat
  kk : List Nat
  iv : List Nat
  s0r : Nat × Nat × Nat
  s1r : Nat × Nat × Nat
  b0r : Nat × Nat × Nat
  b1r : Nat × Nat × Nat

/-- Right rotation of a `w`-bit word. -/
def rotr (w x n : Nat) : Nat := ((x >>> n) ||| (x <<< (w - n))) % 2 ^ w

/-- The `Ch` function of FIPS 180-4. -/
def shaCh (w e f g : Nat) : Nat := (e &&& f) ^^^ ((e ^^^ (2 ^ w - 1)) &&& g)

/-- The `Maj` function of FIPS 180-4. -/
def shaMaj (a b c : Nat) : Nat := (a &&& b) ^^^ (a &&& c) ^^^ (b &&& c)

/-- Small sigma: two rotations and a shift. -/
def ssig (w : Nat) (r : Nat × Nat × Nat) (x : Nat) : Nat :=
  rotr w x r.1 ^^^ rotr w x r.2.1 ^^^ (x >>> r.2.2)

/-- Big sigma: three rotations. -/
def bsig (w : Nat) (r : Nat × Nat × Nat) (x : Nat) : Nat :=
  rotr w x r.1 ^^^ rotr w x r.2.1 ^^^ rotr w x r.2.2

/-- Big-endian bytes (`cnt` of them) of `n`. -/
def beBytes (cnt n : Nat) : List Nat :=
  (List.range cnt).map (fun i => n / 2 ^ (8 * (cnt - 1 - i)) % 256)

/-- Value of a big-endian byte list. -/
def beWord (l : List Nat) : Nat := l.foldl (fun acc b => acc * 256 + b) 0

/-- FIPS 180-4 message padding: `0x80`, zeros, then the bit length. -/
def padMessage (blockLen lenBytes : Nat) (msg : List Nat) : List Nat :=
  let zeros := (blockLen - (msg.length + 1 + lenBytes) % blockLen) % blockLen
  msg ++ [128] ++ List.replicate zeros 0 ++ beBytes lenBytes (8 * msg.length)

/-- Split into chunks of `n` (fuel-based; total for `n > 0`). -/
def chunksGo (n : Nat) : Nat → List Nat → List (List Nat)
  | 0, _ => []
  | _ + 1, [] => []
  | fuel + 1, l => l.take n :: chunksGo n fuel (l.drop n)

/-- Split a list into chunks of `n`. -/
def chunks (n : Nat) (l : List Nat) : List (List Nat) := chunksGo n l.length l

/-- Message-schedule extension; `acc` holds the words produced so far in
reverse order. -/
def scheduleGo (w : Nat) (s0r s1r : Nat × Nat × Nat) : Nat → List Nat → List Nat
  | 0, acc => acc
  | m + 1, acc =>
    scheduleGo w s0r s1r m
      (((ssig w s1r (acc.getD 1 0) + acc.getD 6 0 + ssig w s0r (acc.getD 14 0)
          + acc.getD 15 0) % 2 ^ w) :: acc)

/-- The full message schedule (`rounds` words) from the 16 block words. -/
def schedule (cfg : Config) (rounds : Nat) (ws : List Nat) : List Nat :=
  (scheduleGo cfg.wbits cfg.s0r cfg.s1r (rounds - 16) ws.reverse).reverse

/-- One round of the compression function; `kw` is the pair of round
constant and schedule word. -/
def roundStep (cfg : Config) (st : St) (kw : Nat × Nat) : St :=
  let w := cfg.wbits
  let t1 := (st.h + bsig w cfg.b1r st.e + shaCh w st.e st.f st.g + kw.1 + kw.2) % 2 ^ w
  let t2 := (bsig w cfg.b0r st.a + shaMaj st.a st.b st.c) % 2 ^ w
  { a := (t1 + t2) % 2 ^ w, b := st.a, c := st.b, d := st.c,
    e := (st.d + t1) % 2 ^ w, f := st.e, g := st.f, h := st.g }

/-- Process one 16-word block. -/
def compressBlock (cfg : Config) (st : St) (block : List Nat) : St :=
  let ws := schedule cfg cfg.kk.length ((chunks (cfg.wbits / 8) block).map beWord)
  let r := (cfg.kk.zip ws).foldl (roundStep cfg) st
  let w := cfg.wbits
  { a := (st.a + r.a) % 2 ^ w, b := (st.b + r.b) % 2 ^ w, c := (st.c + r.c) % 2 ^ w,
    d := (st.d + r.d) % 2 ^ w, e := (st.e + r.e) % 2 ^ w, f := (st.f + r.f) % 2 ^ w,
    g := (st.g + r.g) % 2 ^ w, h := (st.h + r.h) % 2 ^ w }

/-- Initial state from a list of eight words. -/
def initSt (l : List Nat) : St :=
  ⟨l.getD 0 0, l.getD 1 0, l.getD 2 0, l.getD 3 0,
   l.getD 4 0, l.getD 5 0, l.getD 6 0, l.getD 7 0⟩

/-- Run a SHA-2 family member on a byte list. -/
def shaRun (cfg : Config) (msg : List Nat) : List Nat :=
  let blockLen := 16 * (cfg.wbits / 8)
  let fin := (chunks blockLen (padMessage blockLen cfg.lenBytes msg)).foldl
    (compressBlock cfg) (initSt cfg.iv)
  ([fin.a, fin.b, fin.c, fin.d, fin.e, fin.f, fin.g, fin.h].take cfg.outWords).flatMap
    (beBytes (cfg.wbits / 8))

/-- SHA-256 parameters. -/
def cfg256 : Config :=
  { wbits := 32, lenBytes := 8, outWords := 8, kk := K256, iv := IV256,
    s0r := (7, 18, 3), s1r := (17, 19, 10), b0r := (2, 13, 22), b1r := (6, 11, 25) }

/-- SHA-384 parameters. -/
def cfg384 : Config :=
  { wbits := 64, lenBytes := 16, outWords := 6, kk := K512, iv := IV384,
    s0r := (1, 8, 7), s1r := (19, 61, 6), b0r := (28, 34, 39), b1r := (14, 18, 41) }

end SHA2

/-- `crypto.subtle.digest("SHA-256", msg)`. -/
def sha256 (msg : List Nat) : List Nat := SHA2.shaRun SHA2.cfg256 msg

/-- `crypto.subtle.digest("SHA-384", msg)`. -/
def sha384 (msg : List Nat) : List Nat := SHA2.shaRun SHA2.cfg384 msg

/-! ## JSON: the platform's `JSON.parse` / `JSON.stringify`

JSON values as built by `JSON.parse`.  Numbers keep their source lexeme;
for the integer literals arising anywhere in this development this
coincides with the canonical formatting `JSON.stringify` would emit. -/

/-- A JavaScript JSON value. -/
inductive Json where
  | null : Json
  | bool (b : Bool) : Json
  | num (lexeme : String) : Json
  | str (s : String) : Json
  | arr (xs : List Json) : Json
  | obj (kvs : List (String × Json)) : Json

/-- JSON insignificant whitespace. -/
def jsonWS (c : Char) : Bool := c = ' ' || c = '\t' || c = '\n' || c = '\r'

/-- Drop leading JSON whitespace. -/
def skipWS (l : List Char) : List Char := l.dropWhile jsonWS

/-- JavaScript whitespace as used by `String.prototype.trim` (the common
members; exotic Unicode space characters behave alike). -/
def isJsSpace (c : Char) : Bool :=
  c = ' ' || c = '\t' || c = '\n' || c = '\r' || c = '\x0b' || c = '\x0c' ||
  c = '\u00A0' || c = '\uFEFF' || c = '\u2028' || c = '\u2029'

/-- `s.trim()` is empty, i.e. `!s.trim()` is true in JS. -/
def isBlank (s : String) : Bool := s.data.all isJsSpace

/-- Numeric value of a list of decimal digit characters. -/
def natOfDigits (l : List Char) : Nat := l.foldl (fun a c => 10 * a + (c.toNat - 48)) 0

/-- Whether a JS property key is an array index (canonical decimal below
`2^32 - 1`); such keys enumerate before all others, in numeric order. -/
def isArrayIndexKey (k : String) : Bool :=
  match k.data with
  | [] => false
  | c :: rest =>
    (c :: rest).all Char.isDigit && (c != '0' || rest.isEmpty) &&
      natOfDigits (c :: rest) < 4294967295

/-- Insert a fresh array-index key at its numeric position inside the
leading array-index block. -/
def insertIntKey : List (String × Json) → String × Json → List (String × Json)
  | [], kv => [kv]
  | p :: rest, kv =>
    if isArrayIndexKey p.1 && natOfDigits p.1.data < natOfDigits kv.1.data then
      p :: insertIntKey rest kv
    else kv :: p :: rest

/-- JS property definition on an object in enumeration order: an existing
key keeps its position and gets the new value; a fresh array-index key
joins the integer block in numeric order; any other fresh key is appended. -/
def jsInsert (l : List (String × Json)) (kv : String × Json) : List (String × Json) :=
  if l.any (fun p => p.1 == kv.1) then
    l.map (fun p => if p.1 == kv.1 then (p.1, kv.2) else p)
  else if isArrayIndexKey kv.1 then insertIntKey l kv
  else l ++ [kv]

/-- The own enumerable properties contributed by `{...v}`: objects give
their fields, strings and arrays their indexed elements, primitives give
nothing. -/
def spreadFields : Json → List (String × Json)
  | .obj kvs => kvs
  | .arr xs => xs.enum.map (fun p => (toString p.1, p.2))
  | .str s => s.data.enum.map (fun p => (toString p.1, Json.str (String.mk [p.2])))
  | _ => []

/-- Value of four hex digits. -/
def hexQuad (a b c d : Char) : Nat :=
  4096 * hexDigitVal a + 256 * hexDigitVal b + 16 * hexDigitVal c + hexDigitVal d

/-- JSON string-literal body: everything up to the closing quote, with
escape processing.  Surrogate pairs written as two `\u` escapes combine;
a lone surrogate becomes U+FFFD (the model cannot represent JS lone
surrogates; no claim exercises them). -/
def parseStringBody : Nat → List Char → Option (List Char × List Char)
  | 0, _ => none
  | fuel + 1, l =>
    match l with
    | [] => none
    | '"' :: r => some ([], r)
    | '\\' :: r =>
      match r with
      | '"' :: r2 => (parseStringBody fuel r2).map (fun p => ('"' :: p.1, p.2))
      | '\\' :: r2 => (parseStringBody fuel r2).map (fun p => ('\\' :: p.1, p.2))
      | '/' :: r2 => (parseStringBody fuel r2).map (fun p => ('/' :: p.1, p.2))
      | 'b' :: r2 => (parseStringBody fuel r2).map (fun p => ('\x08' :: p.1, p.2))
      | 'f' :: r2 => (parseStringBody fuel r2).map (fun p => ('\x0c' :: p.1, p.2))
      | 'n' :: r2 => (parseStringBody fuel r2).map (fun p => ('\n' :: p.1, p.2))
      | 'r' :: r2 => (parseStringBody fuel r2).map (fun p => ('\r' :: p.1, p.2))
      | 't' :: r2 => (parseStringBody fuel r2).map (fun p => ('\t' :: p.1, p.2))
      | 'u' :: h1 :: h2 :: h3 :: h4 :: r2 =>
        if isHexDigitChar h1 && isHexDigitChar h2 && isHexDigitChar h3 && isHexDigitChar h4 then
          let n := hexQuad h1 h2 h3 h4
          if 55296 ≤ n && n < 56320 then
            match r2 with
            | '\\' :: 'u' :: g1 :: g2 :: g3 :: g4 :: r3 =>
              if isHexDigitChar g1 && isHexDigitChar g2 && isHexDigitChar g3 &&
                  isHexDigitChar g4 && 56320 ≤ hexQuad g1 g2 g3 g4 &&
                  hexQuad g1 g2 g3 g4 < 57344 then
                let m := 65536 + (n - 55296) * 1024 + (hexQuad g1 g2 g3 g4 - 56320)
                (parseStringBody fuel r3).map (fun p => (Char.ofNat m :: p.1, p.2))
              else
                (parseStringBody fuel r2).map (fun p => ('\uFFFD' :: p.1, p.2))
            | _ => (parseStringBody fuel r2).map (fun p => ('\uFFFD' :: p.1, p.2))
          else if 56320 ≤ n && n < 57344 then
            (parseStringBody fuel r2).map (fun p => ('\uFFFD' :: p.1, p.2))
          else
            (parseStringBody fuel r2).map (fun p => (Char.ofNat n :: p.1, p.2))
        else none
      | _ => none
    | c :: r =>
      if c.toNat < 32 then none
      else (parseStringBody fuel r).map (fun p => (c :: p.1, p.2))

/-- Optional fraction part of a JSON number. -/
def parseNumFrac (l : List Char) : Option (List Char × List Char) :=
  match l with
  | '.' :: r =>
    let ds := r.takeWhile Char.isDigit
    if ds.isEmpty then none else some ('.' :: ds, r.dropWhile Char.isDigit)
  | _ => some ([], l)

/-- Optional exponent part of a JSON number. -/
def parseNumExp (l : List Char) : Option (List Char × List Char) :=
  match l with
  | c :: r =>
    if c = 'e' || c = 'E' then
      let sr : List Char × List Char :=
        match r with
        | s :: r2 => if s = '+' || s = '-' then ([s], r2) else ([], s :: r2)
        | [] => ([], [])
      let ds := sr.2.takeWhile Char.isDigit
      if ds.isEmpty then none
      else some (c :: sr.1 ++ ds, sr.2.dropWhile Char.isDigit)
    else some ([], c :: r)
  | [] => some ([], [])

/-- A JSON number literal (`-? (0 | [1-9][0-9]*) frac? exp?`), kept as its
lexeme. -/
def parseNumber (l : List Char) : Option (Json × List Char) :=
  let nl : List Char × List Char :=
    if l.head? = some '-' then (['-'], l.tail) else ([], l)
  let ip := nl.2.takeWhile Char.isDigit
  let l2 := nl.2.dropWhile Char.isDigit
  match ip with
  | [] => none
  | c :: rest =>
    if c = '0' && !rest.isEmpty then none
    else
      match parseNumFrac l2 with
      | none => none
      | some (fp, l3) =>
        match parseNumExp l3 with
        | none => none
        | some (ep, l4) => some (.num (String.mk (nl.1 ++ ip ++ fp ++ ep)), l4)

mutual

/-- Recursive-descent JSON value parser (fuel-bounded; the fuel passed by
`jsonParse` is in surplus for every input). -/
def parseValue : Nat → List Char → Option (Json × List Char)
  | 0, _ => none
  | fuel + 1, l =>
    match skipWS l with
    | [] => none
    | c :: rest =>
      if c = 'n' then
        if rest.take 3 = ['u', 'l', 'l'] then some (.null, rest.drop 3) else none
      else if c = 't' then
        if rest.take 3 = ['r', 'u', 'e'] then some (.bool true, rest.drop 3) else none
      else if c = 'f' then
        if rest.take 4 = ['a', 'l', 's', 'e'] then some (.bool false, rest.drop 4) else none
      else if c = '"' then
        (parseStringBody (rest.length + 1) rest).map (fun p => (.str (String.mk p.1), p.2))
      else if c = '\x7b' then
        match skipWS rest with
        | '\x7d' :: r => some (.obj [], r)
        | r => parseMembersGo fuel r []
      else if c = '[' then
        match skipWS rest with
        | ']' :: r => some (.arr [], r)
        | r => parseElemsGo fuel r []
      else parseNumber (c :: rest)

/-- Members of a JSON object (after at least one member is known to
follow); the parsed pairs build the object through `jsInsert`, mirroring
JS property definition. -/
def parseMembersGo : Nat → List Char → List (String × Json) → Option (Json × List Char)
  | 0, _, _ => none
  | fuel + 1, l, acc =>
    match skipWS l with
    | '"' :: r =>
      match parseStringBody (r.length + 1) r with
      | none => none
      | some (key, r2) =>
        match skipWS r2 with
        | ':' :: r3 =>
          match parseValue fuel r3 with
          | none => none
          | some (v, r4) =>
            match skipWS r4 with
            | ',' :: r5 => parseMembersGo fuel r5 (acc ++ [(String.mk key, v)])
            | '\x7d' :: r5 => some (.obj ((acc ++ [(String.mk key, v)]).foldl jsInsert []), r5)
            | _ => none
        | _ => none
    | _ => none

/-- Elements of a JSON array (after at least one element is known to
follow). -/
def parseElemsGo : Nat → List Char → List Json → Option (Json × List Char)
  | 0, _, _ => none
  | fuel + 1, l, acc =>
    match parseValue fuel l with
    | none => none
    | some (v, r) =>
      match skipWS r with
      | ',' :: r2 => parseElemsGo fuel r2 (acc ++ [v])
      | ']' :: r2 => some (.arr (acc ++ [v]), r2)
      | _ => none

end

/-- `JSON.parse`: a complete value with only trailing whitespace. -/
def jsonParse (s : String) : Option Json :=
  match parseValue (2 * s.data.length + 2) s.data with
  | some (v, rest) => if skipWS rest = [] then some v else none
  | none => none

/-- `JSON.stringify` escaping of one string character. -/
def escapeChar (c : Char) : List Char :=
  if c = '"' then ['\\', '"']
  else if c = '\\' then ['\\', '\\']
  else if c = '\x08' then ['\\', 'b']
  else if c = '\x0c' then ['\\', 'f']
  else if c = '\n' then ['\\', 'n']
  else if c = '\r' then ['\\', 'r']
  else if c = '\t' then ['\\', 't']
  else if c.toNat < 32 then
    ['\\', 'u', '0', '0', hexDigitChar (c.toNat / 16), hexDigitChar (c.toNat % 16)]
  else [c]

/-- A JSON string literal as `JSON.stringify` prints it. -/
def quoteStr (s : String) : String :=
  String.mk ('"' :: s.data.flatMap escapeChar ++ ['"'])

mutual

/-- `JSON.stringify(v, null, 0)`: canonical compact serialization with
keys in property enumeration order. -/
def jsonStringify : Json → String
  | .null => "null"
  | .bool true => "true"
  | .bool false => "false"
  | .num lexeme => lexeme
  | .str s => quoteStr s
  | .arr xs => "[" ++ stringifyElems xs ++ "]"
  | .obj kvs => "\x7b" ++ stringifyMembers kvs ++ "\x7d"

/-- Comma-separated serialization of array elements. -/
def stringifyElems : List Json → String
  | [] => ""
  | [x] => jsonStringify x
  | x :: y :: rest => jsonStringify x ++ "," ++ stringifyElems (y :: rest)

/-- Comma-separated serialization of object members. -/
def stringifyMembers : List (String × Json) → String
  | [] => ""
  | [(k, v)] => quoteStr k ++ ":" ++ jsonStringify v
  | (k, v) :: q :: rest =>
    quoteStr k ++ ":" ++ jsonStringify v ++ "," ++ stringifyMembers (q :: rest)

end

/-! ## The four core functions of src/rtmr3.tsx -/

/-- The body of the `for` loop of `rtmrReplay` (lines 24-42): decode the
event, pad it into a fresh 48-byte array when shorter, build the combined
buffer by two typed-array writes, and hash it. -/
def rtmrStep (mr : List Nat) (content : String) : List Nat :=
  let contentArray := hexToUint8Array content
  let contentArray :=
    if contentArray.length < 48 then tsetAt (List.replicate 48 0) 0 contentArray
    else contentArray
  let combined :=
    tsetAt (tsetAt (List.replicate (mr.length + contentArray.length) 0) 0 mr)
      mr.length contentArray
  sha384 combined

/-- `rtmrReplay` (lines 20-44): fold the history into the measurement
register.  The `try`/`catch` guards only the digest primitive, which is
total here, so the `""` error return is dead code in the model. -/
def rtmrReplay (history : List String) : String :=
  if history.length = 0 then INIT_MR
  else uint8ArrayToHex (history.foldl rtmrStep (hexToUint8Array INIT_MR))

/-- `calcDigest` (lines 46-83): the tagged measurement event digest,
building the buffer by offset writes exactly as the source does. -/
def calcDigest (eventName eventValue : String) : String :=
  if eventValue = "" then ""
  else
    let dstackEventTag := setUint32LE 134217729
    let eventNameBytes := utf8Bytes eventName
    let separator := utf8Bytes ":"
    let valueBytes := hexToUint8Array eventValue
    let totalLength :=
      dstackEventTag.length + separator.length * 2 + eventNameBytes.length + valueBytes.length
    let combined := List.replicate totalLength 0
    let offset := 0
    let combined := tsetAt combined offset dstackEventTag
    let offset := offset + dstackEventTag.length
    let combined := tsetAt combined offset separator
    let offset := offset + separator.length
    let combined := tsetAt combined offset eventNameBytes
    let offset := offset + eventNameBytes.length
    let combined := tsetAt combined offset separator
    let offset := offset + separator.length
    let combined := tsetAt combined offset valueBytes
    uint8ArrayToHex (sha384 combined)

/-- `getComposeHash` (lines 85-114): canonical manifest hash. -/
def getComposeHash (composeContent : String) : String :=
  if isBlank composeContent then ""
  else
    let manifestDict : Json :=
      match jsonParse composeContent with
      | some v => v
      | none => Json.obj [("content", Json.str composeContent)]
    let adjustedManifest : Json :=
      Json.obj (jsInsert (spreadFields manifestDict) ("docker_config", Json.obj []))
    let manifestString := jsonStringify adjustedManifest
    uint8ArrayToHex (sha256 (utf8Bytes manifestString))

/-! ## The orchestrator (lines 139-218) -/

/-- The raw user inputs. -/
structure Inputs where
  composeContent : String
  rootFsHash : String
  appId : String
  caCertHash : String
  instanceId : String

/-- The five event digests, fields in the insertion order of the source's
object literal (which fixes the `Object.values` order). -/
structure Digests where
  rootFsHash : String
  appId : String
  composeHash : String
  caCertHash : String
  instanceId : String

/-- The derived outputs. -/
structure Calculated where
  composeHash : String
  digests : Digests
  rtmr3 : String

/-- The five digest values in `Object.values` order. -/
def digestValues (d : Digests) : List String :=
  [d.rootFsHash, d.appId, d.composeHash, d.caCertHash, d.instanceId]

/-- `calculateValues` (lines 185-212) as a pure function: compute the
compose hash, the five event digests, and the final register — the latter
only when every digest is non-empty (`digestValues.every(v => v)`). -/
def calculateValues (inputs : Inputs) : Calculated :=
  let composeHash := getComposeHash inputs.composeContent
  let digests : Digests :=
    { rootFsHash := calcDigest "rootfs-hash" inputs.rootFsHash
      appId := calcDigest "app-id" inputs.appId
      composeHash := calcDigest "compose-hash" composeHash
      caCertHash := calcDigest "ca-cert-hash" inputs.caCertHash
      instanceId := calcDigest "instance-id" inputs.instanceId }
  let rtmr3 :=
    if (digestValues digests).all (fun v => v != "") then rtmrReplay (digestValues digests)
    else ""
  { composeHash := composeHash, digests := digests, rtmr3 := rtmr3 }

/-! ## Spec-side reference definitions (for the refinement-style claims) -/

/-- One extension step as §4.4 of the spec words it: decode, right-pad
with zeros to 48 bytes, extend. -/
def replayStepSpec (mr : List Nat) (d : String) : List Nat :=
  let b := hexToUint8Array d
  sha384 (mr ++ (b ++ List.replicate (48 - b.length) 0))

/-- The replay of §4.4 as a plain strict left fold from the zero register. -/
def rtmrReplaySpec (history : List String) : String :=
  uint8ArrayToHex (history.foldl replayStepSpec (List.replicate 48 0))

/-- The lowercase hex alphabet the encoder emits. -/
def isLowerHexChar (c : Char) : Bool := c.isDigit || ('a' ≤ c && c ≤ 'f')

/-- Whether a JSON value is a number, boolean or null. -/
def Json.isPrimitive : Json → Bool
  | .null => true
  | .bool _ => true
  | .num _ => true
  | _ => false

/-- All five user inputs are present: the four hex fields are non-empty
and the manifest text is non-blank (§6 of the spec; with the lenient
decoder of §4.1 every present input is valid). -/
def inputsPresent (i : Inputs) : Prop :=
  i.rootFsHash ≠ "" ∧ i.appId ≠ "" ∧ i.caCertHash ≠ "" ∧ i.instanceId ≠ "" ∧
    isBlank i.composeContent = false

/-! ## Helper lemmas: strings and the hex codec -/

theorem str_length_data (s : String) : s.length = s.data.length := rfl

theorem str_join_data (l : List String) :
    ∀ acc : String, (l.foldl (· ++ ·) acc).data = acc.data ++ (l.map String.data).flatten := by
  induction l with
  | nil => intro acc; simp
  | cons s rest ih => intro acc; simp [List.foldl_cons, ih]

theorem uint8ArrayToHex_data (a : List Nat) :
    (uint8ArrayToHex a).data = a.flatMap (fun b => padStart2 (jsToStringBase16 b)) := by
  have h : uint8ArrayToHex a =
      (a.map (fun b => String.mk (padStart2 (jsToStringBase16 b)))).foldl (· ++ ·) "" := rfl
  rw [h, str_join_data]
  simp [List.map_map, List.flatMap_def, Function.comp_def]

theorem hexDigitChar_facts : ∀ n, n < 16 →
    isHexDigitChar (hexDigitChar n) = true ∧ isLowerHexChar (hexDigitChar n) = true ∧
      hexDigitVal (hexDigitChar n) = n := by decide

theorem hexDigitChar_upper_facts : ∀ n, n < 16 →
    isHexDigitChar (Char.toUpper (hexDigitChar n)) = true ∧
      hexDigitVal (Char.toUpper (hexDigitChar n)) = n := by decide

theorem jsToStringBase16_lt256 (b : Nat) (h : b < 256) :
    padStart2 (jsToStringBase16 b) = [hexDigitChar (b / 16), hexDigitChar (b % 16)] := by
  by_cases h16 : b < 16
  · have hb0 : b / 16 = 0 := by omega
    have hbm : b % 16 = b := by omega
    have h0 : hexDigitChar 0 = '0' := by decide
    rw [hb0, hbm, h0]
    simp [jsToStringBase16, jsToStringBase16Go, h16, padStart2]
  · obtain ⟨b1, rfl⟩ : ∃ b1, b = b1 + 1 := ⟨b - 1, by omega⟩
    have hdiv : (b1 + 1) / 16 < 16 := by omega
    simp [jsToStringBase16, jsToStringBase16Go, h16, hdiv, padStart2]

theorem uint8ArrayToHex_data_of_bytes (a : List Nat) (h : ∀ x ∈ a, x < 256) :
    (uint8ArrayToHex a).data =
      a.flatMap (fun b => [hexDigitChar (b / 16), hexDigitChar (b % 16)]) := by
  rw [uint8ArrayToHex_data]
  exact List.flatMap_congr (fun x hx => jsToStringBase16_lt256 x (h x hx))

theorem flatMap_pair_length (a : List Nat) (f g : Nat → Char) :
    (a.flatMap (fun b => [f b, g b])).length = 2 * a.length := by
  induction a with
  | nil => simp
  | cons x xs ih => simp [ih]; omega

theorem uint8ArrayToHex_length (a : List Nat) (h : ∀ x ∈ a, x < 256) :
    (uint8ArrayToHex a).length = 2 * a.length := by
  rw [str_length_data, uint8ArrayToHex_data_of_bytes a h, flatMap_pair_length]

theorem uint8ArrayToHex_lower (a : List Nat) (h : ∀ x ∈ a, x < 256) :
    (uint8ArrayToHex a).data.all isLowerHexChar = true := by
  rw [uint8ArrayToHex_data_of_bytes a h]
  simp only [List.all_eq_true]
  intro c hc
  obtain ⟨b, hb, hcb⟩ := List.mem_flatMap.mp hc
  have hblt := h b hb
  have h1 := (hexDigitChar_facts (b / 16) (by omega)).2.1
  have h2 := (hexDigitChar_facts (b % 16) (by omega)).2.1
  simp only [List.mem_cons, List.not_mem_nil, or_false] at hcb
  rcases hcb with rfl | rfl
  · exact h1
  · exact h2

theorem hexPairsGo_pairs (f g : Nat → Char) :
    ∀ (a : List Nat),
      (∀ x ∈ a, isHexDigitChar (f x) = true ∧ isHexDigitChar (g x) = true ∧
        16 * hexDigitVal (f x) + hexDigitVal (g x) = x) →
      ∀ fuel, 2 * a.length ≤ fuel →
      hexPairsGo fuel (a.flatMap (fun b => [f b, g b])) = a := by
  intro a
  induction a with
  | nil => intro _ fuel _; cases fuel <;> simp [hexPairsGo]
  | cons x xs ih =>
    intro h fuel hfuel
    obtain ⟨fl, rfl⟩ : ∃ fl, fuel = fl + 1 :=
      ⟨fuel - 1, by simp only [List.length_cons] at hfuel; omega⟩
    obtain ⟨hf, hg, hv⟩ := h x (by simp)
    simp only [List.flatMap_cons, List.cons_append, List.singleton_append]
    simp only [hexPairsGo, hf, hg, Bool.and_self, if_true, hv, List.nil_append]
    rw [ih (fun y hy => h y (by simp [hy])) fl
      (by simp only [List.length_cons] at hfuel; omega)]

theorem hexToUint8Array_roundtrip (a : List Nat) (h : ∀ x ∈ a, x < 256) :
    hexToUint8Array (uint8ArrayToHex a) = a := by
  rw [hexToUint8Array, uint8ArrayToHex_data_of_bytes a h, flatMap_pair_length]
  refine hexPairsGo_pairs _ _ a (fun x hx => ?_) _ (Nat.le_refl _)
  have hxlt := h x hx
  refine ⟨(hexDigitChar_facts (x / 16) (by omega)).1,
    (hexDigitChar_facts (x % 16) (by omega)).1, ?_⟩
  rw [(hexDigitChar_facts (x / 16) (by omega)).2.2,
    (hexDigitChar_facts (x % 16) (by omega)).2.2]
  omega

/-! ## Helper lemmas: digest output shape -/

theorem beBytes_length (cnt n : Nat) : (SHA2.beBytes cnt n).length = cnt := by
  simp [SHA2.beBytes]

theorem beBytes_lt (cnt n : Nat) : ∀ x ∈ SHA2.beBytes cnt n, x < 256 := by
  intro x hx
  simp only [SHA2.beBytes, List.mem_map] at hx
  obtain ⟨i, _, rfl⟩ := hx
  exact Nat.mod_lt _ (by omega)

theorem sha384_length (msg : List Nat) : (sha384 msg).length = 48 := by
  simp [sha384, SHA2.shaRun, SHA2.cfg384, SHA2.beBytes]

theorem sha256_length (msg : List Nat) : (sha256 msg).length = 32 := by
  simp [sha256, SHA2.shaRun, SHA2.cfg256, SHA2.beBytes]

theorem sha384_lt (msg : List Nat) : ∀ x ∈ sha384 msg, x < 256 := by
  intro x hx
  simp only [sha384, SHA2.shaRun] at hx
  obtain ⟨w, _, hxw⟩ := List.mem_flatMap.mp hx
  exact beBytes_lt _ _ x hxw

theorem sha256_lt (msg : List Nat) : ∀ x ∈ sha256 msg, x < 256 := by
  intro x hx
  simp only [sha256, SHA2.shaRun] at hx
  obtain ⟨w, _, hxw⟩ := List.mem_flatMap.mp hx
  exact beBytes_lt _ _ x hxw

theorem length_ne_zero_ne_empty (s : String) (n : Nat) (hn : n ≠ 0) (h : s.length = n) :
    s ≠ "" := by
  intro he
  rw [he] at h
  exact hn h.symm

theorem hexSha384_facts (m : List Nat) :
    (uint8ArrayToHex (sha384 m)).length = 96 ∧
      (uint8ArrayToHex (sha384 m)).data.all isLowerHexChar = true ∧
      uint8ArrayToHex (sha384 m) ≠ "" := by
  have hlen : (uint8ArrayToHex (sha384 m)).length = 96 := by
    rw [uint8ArrayToHex_length _ (sha384_lt m), sha384_length]
  exact ⟨hlen, uint8ArrayToHex_lower _ (sha384_lt m),
    length_ne_zero_ne_empty _ 96 (by omega) hlen⟩

theorem hexSha256_facts (m : List Nat) :
    (uint8ArrayToHex (sha256 m)).length = 64 ∧ uint8ArrayToHex (sha256 m) ≠ "" := by
  have hlen : (uint8ArrayToHex (sha256 m)).length = 64 := by
    rw [uint8ArrayToHex_length _ (sha256_lt m), sha256_length]
  exact ⟨hlen, length_ne_zero_ne_empty _ 64 (by omega) hlen⟩

/-! ## Helper lemmas: typed-array writes -/

theorem drop_replicate_eq (n m : Nat) :
    (List.replicate m (0 : Nat)).drop n = List.replicate (m - n) 0 := by
  induction n generalizing m with
  | zero => simp
  | succ k ih =>
    cases m with
    | zero => simp
    | succ m1 => simp [List.replicate_succ, ih m1]

theorem tsetAt_zero_offset (l src : List Nat) : tsetAt l 0 src = src ++ l.drop src.length := by
  simp [tsetAt]

theorem tsetAt_fill (pre src : List Nat) (m : Nat) :
    tsetAt (pre ++ List.replicate m 0) pre.length src =
      (pre ++ src) ++ List.replicate (m - src.length) 0 := by
  unfold tsetAt
  rw [List.take_left, ← List.drop_drop, List.drop_left, drop_replicate_eq]

theorem pad48_eq (b : List Nat) :
    tsetAt (List.replicate 48 0) 0 b = b ++ List.replicate (48 - b.length) 0 := by
  rw [tsetAt_zero_offset, drop_replicate_eq]

theorem tset_combine (mr c : List Nat) (n : Nat) (hn : n = mr.length + c.length) :
    tsetAt (tsetAt (List.replicate n 0) 0 mr) mr.length c = mr ++ c := by
  subst hn
  rw [tsetAt_zero_offset, drop_replicate_eq]
  have h1 : mr.length + c.length - mr.length = c.length := by omega
  rw [h1, tsetAt_fill]
  simp

theorem rtmrStep_eq_spec : rtmrStep = replayStepSpec := by
  funext mr content
  simp only [rtmrStep, replayStepSpec]
  by_cases hlt : (hexToUint8Array content).length < 48
  · rw [if_pos hlt, pad48_eq, tset_combine _ _ _ rfl]
  · rw [if_neg hlt]
    have h0 : 48 - (hexToUint8Array content).length = 0 := by omega
    rw [h0]
    rw [tset_combine _ _ _ rfl]
    simp

theorem rtmrReplay_eq_spec (history : List String) : rtmrReplay history = rtmrReplaySpec history := by
  cases history with
  | nil => decide
  | cons d rest =>
    have hinit : hexToUint8Array INIT_MR = List.replicate 48 0 := by decide
    simp [rtmrReplay, rtmrReplaySpec, rtmrStep_eq_spec, hinit]

theorem foldl_rtmrStep_length (history : List String) :
    ∀ init : List Nat, history ≠ [] → (history.foldl rtmrStep init).length = 48 := by
  induction history with
  | nil => intro _ h; exact absurd rfl h
  | cons d rest ih =>
    intro init _
    cases rest with
    | nil => exact sha384_length _
    | cons e rest2 => rw [List.foldl_cons]; exact ih _ (by simp)

theorem foldl_rtmrStep_lt (history : List String) :
    ∀ init : List Nat, history ≠ [] → ∀ x ∈ history.foldl rtmrStep init, x < 256 := by
  induction history with
  | nil => intro _ h; exact absurd rfl h
  | cons d rest ih =>
    intro init _
    cases rest with
    | nil => exact sha384_lt _
    | cons e rest2 => rw [List.foldl_cons]; exact ih _ (by simp)

theorem rtmrReplay_facts (history : List String) (h : history ≠ []) :
    (rtmrReplay history).length = 96 ∧ (rtmrReplay history).data.all isLowerHexChar = true := by
  have hne : ¬history.length = 0 := by
    intro h0
    exact h (List.length_eq_zero.mp h0)
  rw [rtmrReplay, if_neg hne]
  constructor
  · rw [uint8ArrayToHex_length _ (foldl_rtmrStep_lt history _ h),
      foldl_rtmrStep_length history _ h]
  · exact uint8ArrayToHex_lower _ (foldl_rtmrStep_lt history _ h)

theorem rtmrReplay_ne_empty (history : List String) : rtmrReplay history ≠ "" := by
  cases h : history with
  | nil => decide
  | cons d rest =>
    have := (rtmrReplay_facts (d :: rest) (by simp)).1
    exact length_ne_zero_ne_empty _ 96 (by omega) this

/-! ## Helper lemmas: the scanner of the hex decoder -/

theorem hexPairsGo_skip (c : Char) (l : List Char) (hc : isHexDigitChar c = false)
    (fuel : Nat) : hexPairsGo (fuel + 1) (c :: l) = hexPairsGo fuel l := by
  cases l with
  | nil => cases fuel <;> simp [hexPairsGo]
  | cons c2 rest => simp [hexPairsGo, hc]

theorem hexPairsGo_take (c1 c2 : Char) (l : List Char) (h1 : isHexDigitChar c1 = true)
    (h2 : isHexDigitChar c2 = true) (fuel : Nat) :
    hexPairsGo (fuel + 1) (c1 :: c2 :: l) =
      (16 * hexDigitVal c1 + hexDigitVal c2) :: hexPairsGo fuel l := by
  simp [hexPairsGo, h1, h2]

theorem hexPairsGo_fuel : ∀ f1 : Nat, ∀ l : List Char, ∀ f2 : Nat,
    l.length ≤ f1 → l.length ≤ f2 → hexPairsGo f1 l = hexPairsGo f2 l := by
  intro f1
  induction f1 with
  | zero =>
    intro l f2 h1 _
    have : l = [] := List.length_eq_zero.mp (by omega)
    subst this
    cases f2 <;> simp [hexPairsGo]
  | succ k ih =>
    intro l f2 h1 h2
    cases l with
    | nil => cases f2 <;> simp [hexPairsGo]
    | cons c1 rest1 =>
      cases rest1 with
      | nil =>
        obtain ⟨g, rfl⟩ : ∃ g, f2 = g + 1 := ⟨f2 - 1, by simp at h2; omega⟩
        simp [hexPairsGo]
      | cons c2 rest =>
        obtain ⟨g, rfl⟩ : ∃ g, f2 = g + 1 := ⟨f2 - 1, by simp at h2; omega⟩
        simp only [List.length_cons] at h1 h2
        by_cases hhex : isHexDigitChar c1 && isHexDigitChar c2
        · obtain ⟨hx1, hx2⟩ : isHexDigitChar c1 = true ∧ isHexDigitChar c2 = true := by
            simpa using hhex
          rw [hexPairsGo_take c1 c2 rest hx1 hx2 k,
            hexPairsGo_take c1 c2 rest hx1 hx2 g,
            ih rest g (by omega) (by omega)]
        · have hfalse : (isHexDigitChar c1 && isHexDigitChar c2) = false :=
            Bool.eq_false_iff.mpr hhex
          simp only [hexPairsGo, hfalse, Bool.false_eq_true, if_false]
          exact ih (c2 :: rest) g (by simp; omega) (by simp; omega)

theorem hexPairsGo_nopairs : ∀ fuel : Nat, ∀ l : List Char,
    (l.zip l.tail).all (fun p => !(isHexDigitChar p.1 && isHexDigitChar p.2)) = true →
    hexPairsGo fuel l = [] := by
  intro fuel
  induction fuel with
  | zero => intro l _; simp [hexPairsGo]
  | succ k ih =>
    intro l hl
    cases l with
    | nil => simp [hexPairsGo]
    | cons c1 rest1 =>
      cases rest1 with
      | nil => simp [hexPairsGo]
      | cons c2 rest =>
        simp only [List.tail_cons, List.zip_cons_cons, List.all_cons,
          Bool.and_eq_true, Bool.not_eq_true'] at hl
        simp only [hexPairsGo, hl.1, Bool.false_eq_true, if_false]
        exact ih (c2 :: rest) hl.2

theorem hexToUint8Array_upper_roundtrip (a : List Nat) (h : ∀ x ∈ a, x < 256) :
    hexToUint8Array (String.mk ((uint8ArrayToHex a).data.map Char.toUpper)) = a := by
  rw [uint8ArrayToHex_data_of_bytes a h]
  show hexPairsGo _ _ = a
  rw [List.map_flatMap]
  have hlen : (a.flatMap fun b =>
      [Char.toUpper (hexDigitChar (b / 16)), Char.toUpper (hexDigitChar (b % 16))]).length
      = 2 * a.length := flatMap_pair_length a _ _
  simp only [List.map_cons, List.map_nil]
  rw [show (String.mk (a.flatMap fun b =>
      [Char.toUpper (hexDigitChar (b / 16)), Char.toUpper (hexDigitChar (b % 16))])).data.length
      = 2 * a.length from hlen]
  refine hexPairsGo_pairs _ _ a (fun x hx => ?_) _ (by omega)
  have hxlt := h x hx
  refine ⟨(hexDigitChar_upper_facts (x / 16) (by omega)).1,
    (hexDigitChar_upper_facts (x % 16) (by omega)).1, ?_⟩
  rw [(hexDigitChar_upper_facts (x / 16) (by omega)).2,
    (hexDigitChar_upper_facts (x % 16) (by omega)).2]
  omega

/-! ## Helper lemmas: the event digest buffer construction -/

theorem tset_chain5 (p1 p2 p3 p4 p5 : List Nat) (T o2 o3 o4 o5 : Nat)
    (hT : T = p1.length + p2.length + p3.length + p4.length + p5.length)
    (h2 : o2 = p1.length) (h3 : o3 = p1.length + p2.length)
    (h4 : o4 = p1.length + p2.length + p3.length)
    (h5 : o5 = p1.length + p2.length + p3.length + p4.length) :
    tsetAt (tsetAt (tsetAt (tsetAt (tsetAt (List.replicate T 0) 0 p1) o2 p2) o3 p3) o4 p4) o5 p5
      = p1 ++ p2 ++ p3 ++ p4 ++ p5 := by
  subst hT h2 h3 h4 h5
  have s1 : tsetAt (List.replicate (p1.length + p2.length + p3.length + p4.length + p5.length)
      (0 : Nat)) 0 p1 = p1 ++ List.replicate (p2.length + p3.length + p4.length + p5.length) 0 := by
    rw [tsetAt_zero_offset, drop_replicate_eq]
    congr 2
    omega
  have s2 : tsetAt (p1 ++ List.replicate (p2.length + p3.length + p4.length + p5.length)
      (0 : Nat)) p1.length p2
      = (p1 ++ p2) ++ List.replicate (p3.length + p4.length + p5.length) 0 := by
    rw [tsetAt_fill]
    congr 2
    omega
  have s3 : tsetAt ((p1 ++ p2) ++ List.replicate (p3.length + p4.length + p5.length)
      (0 : Nat)) (p1.length + p2.length) p3
      = ((p1 ++ p2) ++ p3) ++ List.replicate (p4.length + p5.length) 0 := by
    rw [show p1.length + p2.length = (p1 ++ p2).length from (List.length_append _ _).symm,
      tsetAt_fill]
    congr 2
    omega
  have s4 : tsetAt (((p1 ++ p2) ++ p3) ++ List.replicate (p4.length + p5.length)
      (0 : Nat)) (p1.length + p2.length + p3.length) p4
      = (((p1 ++ p2) ++ p3) ++ p4) ++ List.replicate p5.length 0 := by
    rw [show p1.length + p2.length + p3.length = ((p1 ++ p2) ++ p3).length from by
        simp only [List.length_append],
      tsetAt_fill]
    congr 2
    omega
  have s5 : tsetAt ((((p1 ++ p2) ++ p3) ++ p4) ++ List.replicate p5.length
      (0 : Nat)) (p1.length + p2.length + p3.length + p4.length) p5
      = (((p1 ++ p2) ++ p3) ++ p4) ++ p5 := by
    rw [show p1.length + p2.length + p3.length + p4.length = (((p1 ++ p2) ++ p3) ++ p4).length
      from by simp only [List.length_append], tsetAt_fill]
    simp
  rw [s1, s2, s3, s4, s5]

theorem calcDigest_eq (name value : String) (h : value ≠ "") :
    calcDigest name value =
      uint8ArrayToHex (sha384 (setUint32LE 134217729 ++ utf8Bytes ":" ++ utf8Bytes name ++
        utf8Bytes ":" ++ hexToUint8Array value)) := by
  have hc := tset_chain5 (setUint32LE 134217729) (utf8Bytes ":") (utf8Bytes name)
    (utf8Bytes ":") (hexToUint8Array value)
    ((setUint32LE 134217729).length + (utf8Bytes ":").length * 2 + (utf8Bytes name).length +
      (hexToUint8Array value).length)
    (0 + (setUint32LE 134217729).length)
    (0 + (setUint32LE 134217729).length + (utf8Bytes ":").length)
    (0 + (setUint32LE 134217729).length + (utf8Bytes ":").length + (utf8Bytes name).length)
    (0 + (setUint32LE 134217729).length + (utf8Bytes ":").length + (utf8Bytes name).length +
      (utf8Bytes ":").length)
    (by omega) (by omega) (by omega) (by omega) (by omega)
  unfold calcDigest
  rw [if_neg h]
  simp only [hc]

/-! ## Helper lemmas: emptiness of the stage outputs -/

theorem calcDigest_eq_empty_iff (n v : String) : calcDigest n v = "" ↔ v = "" := by
  constructor
  · intro h
    by_contra hv
    rw [calcDigest_eq n v hv] at h
    exact (hexSha384_facts _).2.2 h
  · intro h
    rw [h]
    rfl

theorem getComposeHash_ne_empty (c : String) (hb : isBlank c = false) :
    getComposeHash c ≠ "" := by
  unfold getComposeHash
  rw [if_neg (by simp [hb])]
  exact (hexSha256_facts _).2

theorem getComposeHash_empty (c : String) (hb : isBlank c = true) : getComposeHash c = "" := by
  unfold getComposeHash
  rw [if_pos (by simp [hb])]

/-! ## Helper lemmas: JSON parsing and object adjustment -/

theorem skipWS_all_space (l : List Char) (h : ∀ c ∈ l, isJsSpace c = true) :
    ∀ c ∈ skipWS l, isJsSpace c = true := by
  intro c hc
  exact h c ((List.dropWhile_sublist _).subset hc)

theorem isJsSpace_facts (c : Char) (h : isJsSpace c = true) :
    Char.isDigit c = false ∧ c ≠ 'n' ∧ c ≠ 't' ∧ c ≠ 'f' ∧ c ≠ '"' ∧ c ≠ '\x7b' ∧
      c ≠ '[' ∧ c ≠ '-' := by
  simp only [isJsSpace, Bool.or_eq_true, decide_eq_true_eq] at h
  rcases h with
    (((((((((rfl | rfl) | rfl) | rfl) | rfl) | rfl) | rfl) | rfl) | rfl) | rfl) <;> decide

theorem parseValue_blank (fuel : Nat) (l : List Char) (h : ∀ c ∈ l, isJsSpace c = true) :
    parseValue fuel l = none := by
  cases fuel with
  | zero => rfl
  | succ k =>
    have hs := skipWS_all_space l h
    cases hws : skipWS l with
    | nil => simp [parseValue, hws]
    | cons c rest =>
      have hc := isJsSpace_facts c (hs c (by rw [hws]; exact List.mem_cons_self c rest))
      simp only [parseValue, hws]
      rw [if_neg hc.2.1, if_neg hc.2.2.1, if_neg hc.2.2.2.1, if_neg hc.2.2.2.2.1,
        if_neg hc.2.2.2.2.2.1, if_neg hc.2.2.2.2.2.2.1]
      have hneg : ¬((c :: rest).head? = some '-') := by
        simp only [List.head?_cons, Option.some.injEq]
        exact hc.2.2.2.2.2.2.2
      simp only [parseNumber, if_neg hneg, List.takeWhile_cons, hc.1,
        Bool.false_eq_true, if_false]

theorem jsonParse_blank (s : String) (h : isBlank s = true) : jsonParse s = none := by
  unfold jsonParse
  rw [parseValue_blank _ s.data (by simpa [isBlank, List.all_eq_true] using h)]

theorem jsonParse_some_not_blank (s : String) (v : Json) (h : jsonParse s = some v) :
    isBlank s = false := by
  cases hb : isBlank s with
  | false => rfl
  | true => rw [jsonParse_blank s hb] at h; exact Option.noConfusion h

theorem spreadFields_primitive (v : Json) (h : Json.isPrimitive v = true) :
    spreadFields v = [] := by
  cases v <;> simp_all [Json.isPrimitive, spreadFields]

theorem jsInsert_fresh (l : List (String × Json)) (kv : String × Json)
    (h : l.any (fun p => p.1 == kv.1) = false) (hidx : isArrayIndexKey kv.1 = false) :
    jsInsert l kv = l ++ [kv] := by
  simp [jsInsert, h, hidx]

theorem jsInsert_content (t : String) :
    jsInsert [("content", Json.str t)] ("docker_config", Json.obj []) =
      [("content", Json.str t), ("docker_config", Json.obj [])] := by
  have h1 : ([("content", Json.str t)].any (fun p => p.1 == "docker_config")) = false := by
    simp [List.any_cons]
  have h2 : isArrayIndexKey "docker_config" = false := by decide
  rw [jsInsert_fresh _ _ h1 h2]
  rfl

theorem jsInsert_dc_congr (kvs1 kvs2 : List (String × Json))
    (h : kvs1.map (fun p => (p.1, if p.1 = "docker_config" then Json.obj [] else p.2)) =
      kvs2.map (fun p => (p.1, if p.1 = "docker_config" then Json.obj [] else p.2))) :
    jsInsert kvs1 ("docker_config", Json.obj []) =
      jsInsert kvs2 ("docker_config", Json.obj []) := by
  have hfst : ∀ kvs : List (String × Json),
      (kvs.map (fun p => (p.1, if p.1 = "docker_config" then Json.obj [] else p.2))).map
        Prod.fst = kvs.map Prod.fst := by
    intro kvs
    rw [List.map_map]
    rfl
  have hkeys : kvs1.map Prod.fst = kvs2.map Prod.fst := by
    rw [← hfst kvs1, ← hfst kvs2, h]
  have hany : kvs1.any (fun p => p.1 == "docker_config") =
      kvs2.any (fun p => p.1 == "docker_config") := by
    have h2 : ∀ kvs : List (String × Json), kvs.any (fun p => p.1 == "docker_config") =
        (kvs.map Prod.fst).any (fun k => k == "docker_config") := by
      intro kvs
      induction kvs with
      | nil => rfl
      | cons p rest ih => simp [List.any_cons, ih]
    rw [h2, h2, hkeys]
  by_cases hin : kvs1.any (fun p => p.1 == "docker_config") = true
  · rw [jsInsert, jsInsert, if_pos hin, if_pos (hany ▸ hin)]
    have h3 : ∀ kvs : List (String × Json),
        kvs.map (fun p => if p.1 == "docker_config" then (p.1, Json.obj []) else p) =
        kvs.map (fun p => (p.1, if p.1 = "docker_config" then Json.obj [] else p.2)) := by
      intro kvs
      apply List.map_congr_left
      intro p _
      by_cases hp : p.1 = "docker_config"
      · simp [hp]
      · simp [hp]
    rw [h3, h3, h]
  · have hin1 : kvs1.any (fun p => p.1 == "docker_config") = false :=
      Bool.eq_false_iff.mpr hin
    have hin2 : kvs2.any (fun p => p.1 == "docker_config") = false := hany ▸ hin1
    have hid : ∀ kvs : List (String × Json),
        kvs.any (fun p => p.1 == "docker_config") = false →
        kvs.map (fun p => (p.1, if p.1 = "docker_config" then Json.obj [] else p.2)) = kvs := by
      intro kvs hk
      have hnot : ∀ p ∈ kvs, p.1 ≠ "docker_config" := by
        intro p hp heq
        have := List.any_eq_false.mp hk p hp
        simp [heq] at this
      calc kvs.map (fun p => (p.1, if p.1 = "docker_config" then Json.obj [] else p.2))
          = kvs.map id := List.map_congr_left (fun p hp => by simp [hnot p hp])
        _ = kvs := List.map_id kvs
    have heq : kvs1 = kvs2 := by rw [← hid kvs1 hin1, ← hid kvs2 hin2, h]
    rw [heq]

theorem getComposeHash_parsed (c : String) (v : Json) (h : jsonParse c = some v) :
    getComposeHash c = uint8ArrayToHex (sha256 (utf8Bytes (jsonStringify
      (Json.obj (jsInsert (spreadFields v) ("docker_config", Json.obj [])))))) := by
  have hb := jsonParse_some_not_blank c v h
  unfold getComposeHash
  rw [if_neg (by simp [hb]), h]

theorem getComposeHash_raw (c : String) (hb : isBlank c = false) (h : jsonParse c = none) :
    getComposeHash c = uint8ArrayToHex (sha256 (utf8Bytes (jsonStringify
      (Json.obj [("content", Json.str c), ("docker_config", Json.obj [])])))) := by
  unfold getComposeHash
  rw [if_neg (by simp [hb]), h]
  show uint8ArrayToHex (sha256 (utf8Bytes (jsonStringify
    (Json.obj (jsInsert [("content", Json.str c)] ("docker_config", Json.obj [])))))) = _
  rw [jsInsert_content]

/-! ## Helper lemmas: the orchestrator -/

theorem calcValues_rtmr3 (i : Inputs) :
    (calculateValues i).rtmr3 =
      if (digestValues (calculateValues i).digests).all (fun v => v != "") then
        rtmrReplay (digestValues (calculateValues i).digests)
      else "" := rfl

theorem digests_explicit (i : Inputs) :
    digestValues (calculateValues i).digests =
      [calcDigest "rootfs-hash" i.rootFsHash, calcDigest "app-id" i.appId,
        calcDigest "compose-hash" (getComposeHash i.composeContent),
        calcDigest "ca-cert-hash" i.caCertHash,
        calcDigest "instance-id" i.instanceId] := rfl

theorem all_digests_iff (i : Inputs) :
    ((digestValues (calculateValues i).digests).all (fun v => v != "") = true) ↔
      inputsPresent i := by
  rw [digests_explicit]
  simp only [List.all_cons, List.all_nil, Bool.and_eq_true, bne_iff_ne, and_true]
  have hiff : ∀ n v : String, (calcDigest n v ≠ "") ↔ (v ≠ "") :=
    fun n v => not_congr (calcDigest_eq_empty_iff n v)
  constructor
  · rintro ⟨ha, hb', hc, hd, he⟩
    refine ⟨(hiff _ _).mp ha, (hiff _ _).mp hb', (hiff _ _).mp hd, (hiff _ _).mp he, ?_⟩
    have hg : getComposeHash i.composeContent ≠ "" := (hiff _ _).mp hc
    cases hbl : isBlank i.composeContent with
    | false => rfl
    | true => exact absurd (getComposeHash_empty _ hbl) hg
  · rintro ⟨ha, hb', hd, he, hbl⟩
    exact ⟨(hiff _ _).mpr ha, (hiff _ _).mpr hb',
      (hiff _ _).mpr (getComposeHash_ne_empty _ hbl), (hiff _ _).mpr hd, (hiff _ _).mpr he⟩

/-! ## The claims -/

/-- Claim C1: for every event name and every non-empty event value,
`calcDigest` returns the lowercase hex encoding of the SHA-384 digest of
the exact concatenation: the 4-byte tag `0x08000001` in little-endian byte
order, the ASCII byte `:`, the UTF-8 bytes of the name, the ASCII byte `:`
again, and the raw bytes decoded from the value — not padded to 48 bytes. -/
theorem claim_C1 (name value : String) (h : value ≠ "") :
    setUint32LE 134217729 = [1, 0, 0, 8] ∧
    utf8Bytes ":" = [58] ∧
    calcDigest name value =
      uint8ArrayToHex (sha384 (setUint32LE 134217729 ++ utf8Bytes ":" ++ utf8Bytes name ++
        utf8Bytes ":" ++ hexToUint8Array value)) ∧
    (calcDigest name value).data.all isLowerHexChar = true := by
  refine ⟨by decide, by decide, calcDigest_eq name value h, ?_⟩
  rw [calcDigest_eq name value h]
  exact (hexSha384_facts _).2.1

/-- Witness for C1 at a concrete name and value. -/
theorem witness_C1 :
    ("ff" : String) ≠ "" ∧
    calcDigest "rootfs-hash" "ff" =
      uint8ArrayToHex (sha384 (setUint32LE 134217729 ++ utf8Bytes ":" ++
        utf8Bytes "rootfs-hash" ++ utf8Bytes ":" ++ hexToUint8Array "ff")) :=
  ⟨by decide, (claim_C1 "rootfs-hash" "ff" (by decide)).2.2.1⟩

/-- Claim C2: the replay engine is a strict left fold from the 48-zero-byte
register; each digest is decoded, right-padded with zeros to 48 bytes when
shorter, appended to the 48-byte register to form a 96-byte buffer, and
the register becomes its SHA-384; the final register is hex-encoded, and
the empty history returns 96 `0` characters. -/
theorem claim_C2 :
    rtmrReplay [] = String.mk (List.replicate 96 '0') ∧
    (∀ history : List String, (∀ d ∈ history, (hexToUint8Array d).length ≤ 48) →
      rtmrReplay history = rtmrReplaySpec history) ∧
    (∀ (mr : List Nat) (d : String), mr.length = 48 → (hexToUint8Array d).length ≤ 48 →
      (mr ++ (hexToUint8Array d ++
        List.replicate (48 - (hexToUint8Array d).length) 0)).length = 96 ∧
      (replayStepSpec mr d).length = 48) := by
  refine ⟨by decide, fun history _ => rtmrReplay_eq_spec history, fun mr d hmr hd => ⟨?_, ?_⟩⟩
  · simp [hmr]
    omega
  · exact sha384_length _

/-- Witness for C2 at a concrete one-event history and step. -/
theorem witness_C2 :
    (∀ d ∈ ["ff"], (hexToUint8Array d).length ≤ 48) ∧
    rtmrReplay ["ff"] = rtmrReplaySpec ["ff"] ∧
    (List.replicate 48 (0 : Nat)).length = 48 ∧
    (replayStepSpec (List.replicate 48 0) "ff").length = 48 :=
  ⟨by decide, claim_C2.2.1 ["ff"] (by decide), by decide,
    (claim_C2.2.2 (List.replicate 48 0) "ff" (by decide) (by decide)).2⟩

/-- Claim C3: the orchestrator invokes the replay engine only when all five
event digests are non-empty; the final register is a 96-hex-character
string when all five inputs are present (with the lenient decoder every
present input is valid), and the empty string otherwise. -/
theorem claim_C3 (i : Inputs) :
    (inputsPresent i → (calculateValues i).rtmr3.length = 96 ∧
      (calculateValues i).rtmr3.data.all isLowerHexChar = true) ∧
    (¬inputsPresent i → (calculateValues i).rtmr3 = "") ∧
    ((calculateValues i).rtmr3 ≠ "" →
      (∀ d ∈ digestValues (calculateValues i).digests, d ≠ "") ∧
      (calculateValues i).rtmr3 = rtmrReplay (digestValues (calculateValues i).digests)) := by
  have hr := calcValues_rtmr3 i
  by_cases hc : (digestValues (calculateValues i).digests).all (fun v => v != "") = true
  · rw [if_pos hc] at hr
    have hp : inputsPresent i := (all_digests_iff i).mp hc
    have hfacts := rtmrReplay_facts (digestValues (calculateValues i).digests)
      (by rw [digests_explicit]; simp)
    refine ⟨fun _ => ⟨by rw [hr]; exact hfacts.1, by rw [hr]; exact hfacts.2⟩,
      fun hnp => absurd hp hnp, fun _ => ⟨?_, hr⟩⟩
    intro d hd
    have := List.all_eq_true.mp hc d hd
    simpa [bne_iff_ne] using this
  · rw [if_neg hc] at hr
    have hnp : ¬inputsPresent i := fun hp => hc ((all_digests_iff i).mpr hp)
    exact ⟨fun hp => absurd hp hnp, fun _ => hr, fun hne => absurd hr hne⟩

/-- Witness for C3 at concrete present inputs. -/
theorem witness_C3 :
    inputsPresent ⟨"\x7b\"a\":1\x7d", "00", "00", "00", "00"⟩ ∧
    (calculateValues ⟨"\x7b\"a\":1\x7d", "00", "00", "00", "00"⟩).rtmr3.length = 96 :=
  ⟨⟨by decide, by decide, by decide, by decide, rfl⟩,
    ((claim_C3 ⟨"\x7b\"a\":1\x7d", "00", "00", "00", "00"⟩).1
      ⟨by decide, by decide, by decide, by decide, rfl⟩).1⟩

/-- Claim C4 (amended): two manifest texts that parse as key-value
documents and whose field lists agree after replacing, in place, the value
at every `docker_config` key with the empty object — same keys, in the
same order, equal values except at `docker_config` — hash identically;
and hashing is deterministic.  (As originally stated the claim also
covered absence of the field, which the code refutes: presence at a
non-final position serializes the field at its original position while
absence appends it, see the counterexample.) -/
theorem claim_C4 (t1 t2 : String) (kvs1 kvs2 : List (String × Json))
    (h1 : jsonParse t1 = some (Json.obj kvs1)) (h2 : jsonParse t2 = some (Json.obj kvs2))
    (hsame : kvs1.map (fun p => (p.1, if p.1 = "docker_config" then Json.obj [] else p.2)) =
      kvs2.map (fun p => (p.1, if p.1 = "docker_config" then Json.obj [] else p.2))) :
    getComposeHash t1 = getComposeHash t2 ∧
      ∀ t : String, getComposeHash t = getComposeHash t := by
  refine ⟨?_, fun _ => rfl⟩
  rw [getComposeHash_parsed t1 _ h1, getComposeHash_parsed t2 _ h2]
  show uint8ArrayToHex (sha256 (utf8Bytes (jsonStringify (Json.obj
    (jsInsert kvs1 ("docker_config", Json.obj [])))))) = _
  rw [jsInsert_dc_congr kvs1 kvs2 hsame]
  rfl

set_option maxRecDepth 100000 in
/-- Witness for C4: two manifests differing only in the contents of an
in-place `docker_config` field. -/
theorem witness_C4 :
    jsonParse "\x7b\"a\":1,\"docker_config\":5\x7d" =
      some (Json.obj [("a", Json.num "1"), ("docker_config", Json.num "5")]) ∧
    jsonParse "\x7b\"a\":1,\"docker_config\":\x7b\"b\":true\x7d\x7d" =
      some (Json.obj [("a", Json.num "1"),
        ("docker_config", Json.obj [("b", Json.bool true)])]) ∧
    getComposeHash "\x7b\"a\":1,\"docker_config\":5\x7d" =
      getComposeHash "\x7b\"a\":1,\"docker_config\":\x7b\"b\":true\x7d\x7d" :=
  ⟨rfl, rfl,
    (claim_C4 "\x7b\"a\":1,\"docker_config\":5\x7d"
      "\x7b\"a\":1,\"docker_config\":\x7b\"b\":true\x7d\x7d"
      [("a", Json.num "1"), ("docker_config", Json.num "5")]
      [("a", Json.num "1"), ("docker_config", Json.obj [("b", Json.bool true)])]
      rfl rfl rfl).1⟩

set_option maxRecDepth 100000 in
/-- Counterexample for C4 as frozen: the two texts differ solely in the
presence (with content `5`, ahead of `a`) versus absence of
`docker_config` — erasing that key leaves the same document — yet their
hashes differ, because the spread keeps the key at its original position
while absence appends it at the end. -/
theorem counterexample_C4 :
    jsonParse "\x7b\"docker_config\":5,\"a\":1\x7d" =
      some (Json.obj [("docker_config", Json.num "5"), ("a", Json.num "1")]) ∧
    jsonParse "\x7b\"a\":1\x7d" = some (Json.obj [("a", Json.num "1")]) ∧
    ([("docker_config", Json.num "5"), ("a", Json.num "1")].filter
      (fun p => p.1 != "docker_config")) = [("a", Json.num "1")] ∧
    ([("a", Json.num "1")].filter (fun p => p.1 != "docker_config")) =
      [("a", Json.num "1")] ∧
    getComposeHash "\x7b\"docker_config\":5,\"a\":1\x7d" ≠
      getComposeHash "\x7b\"a\":1\x7d" :=
  ⟨rfl, rfl, rfl, rfl, by decide⟩

/-- Claim C5 (amended): for every non-blank text that fails to parse, the
hasher serializes and digests the document that wraps the original text
verbatim under `content` and then, like the parsed path, carries the
emptied `docker_config` field: exactly the two fields `content` and
`docker_config`.  (As originally stated the hashed document was claimed to
hold only the `content` field, which the counterexample refutes.) -/
theorem claim_C5 (t : String) (hb : isBlank t = false) (hp : jsonParse t = none) :
    getComposeHash t = uint8ArrayToHex (sha256 (utf8Bytes (jsonStringify
      (Json.obj [("content", Json.str t), ("docker_config", Json.obj [])])))) :=
  getComposeHash_raw t hb hp

/-- Witness for C5 at a concrete unparsable text. -/
theorem witness_C5 :
    isBlank "hello: world" = false ∧
    jsonParse "hello: world" = none ∧
    getComposeHash "hello: world" = uint8ArrayToHex (sha256 (utf8Bytes (jsonStringify
      (Json.obj [("content", Json.str "hello: world"), ("docker_config", Json.obj [])])))) :=
  ⟨rfl, rfl, claim_C5 "hello: world" rfl rfl⟩

set_option maxRecDepth 100000 in
/-- Counterexample for C5 as frozen: on an unparsable text the hash is not
the digest of the single-field `content` document. -/
theorem counterexample_C5 :
    isBlank "services: web" = false ∧
    jsonParse "services: web" = none ∧
    getComposeHash "services: web" ≠ uint8ArrayToHex (sha256 (utf8Bytes (jsonStringify
      (Json.obj [("content", Json.str "services: web")])))) :=
  ⟨rfl, rfl, by decide⟩

/-- Claim C6 (amended): the replay engine neither truncates an over-48-byte
entry nor treats it as an error: replay always equals the spec fold (which
pads only entries shorter than 48 bytes and leaves longer ones whole), the
result is never the empty string (the engine's error sentinel), and a step
on an over-length entry hashes the register followed by the full decoded
bytes.  (As originally stated the entry was claimed to be treated as an
error condition, which the counterexample refutes.) -/
theorem claim_C6 :
    (∀ history : List String, rtmrReplay history = rtmrReplaySpec history) ∧
    (∀ history : List String, rtmrReplay history ≠ "") ∧
    (∀ (mr : List Nat) (d : String), 48 ≤ (hexToUint8Array d).length →
      replayStepSpec mr d = sha384 (mr ++ hexToUint8Array d)) := by
  refine ⟨rtmrReplay_eq_spec, rtmrReplay_ne_empty, fun mr d hd => ?_⟩
  simp [replayStepSpec, show 48 - (hexToUint8Array d).length = 0 from by omega]

set_option maxRecDepth 100000 in
/-- Witness for C6 at a 49-byte entry. -/
theorem witness_C6 :
    48 ≤ (hexToUint8Array "000000000000000000000000000000000000000000000000000000000000000000000000000000000000000000000000ff").length ∧
    replayStepSpec (List.replicate 48 0) "000000000000000000000000000000000000000000000000000000000000000000000000000000000000000000000000ff" =
      sha384 (List.replicate 48 0 ++ hexToUint8Array "000000000000000000000000000000000000000000000000000000000000000000000000000000000000000000000000ff") :=
  ⟨by decide, claim_C6.2.2 (List.replicate 48 0) "000000000000000000000000000000000000000000000000000000000000000000000000000000000000000000000000ff" (by decide)⟩

set_option maxRecDepth 100000 in
/-- Counterexample for C6 as frozen: a history containing a 49-byte entry
is not treated as an error — the replay returns an ordinary (non-empty)
result, namely the hex of the SHA-384 of the register followed by the
whole 49 decoded bytes. -/
theorem counterexample_C6 :
    (hexToUint8Array "000000000000000000000000000000000000000000000000000000000000000000000000000000000000000000000000ff").length = 49 ∧
    rtmrReplay ["000000000000000000000000000000000000000000000000000000000000000000000000000000000000000000000000ff"] ≠ "" ∧
    rtmrReplay ["000000000000000000000000000000000000000000000000000000000000000000000000000000000000000000000000ff"] =
      uint8ArrayToHex (sha384 (List.replicate 48 0 ++ hexToUint8Array "000000000000000000000000000000000000000000000000000000000000000000000000000000000000000000000000ff")) := by
  refine ⟨by decide, rtmrReplay_ne_empty _, ?_⟩
  rw [rtmrReplay_eq_spec]
  have hlen : (hexToUint8Array "000000000000000000000000000000000000000000000000000000000000000000000000000000000000000000000000ff").length = 49 := by decide
  simp [rtmrReplaySpec, replayStepSpec, hlen]

/-- Claim C7: decoding inverts encoding — `hexToUint8Array (uint8ArrayToHex b) = b`
for every byte sequence `b` (entries < 256), and the encoder emits exactly
two lowercase hex characters per byte with no separators. -/
theorem claim_C7 (b : List Nat) (h : ∀ x ∈ b, x < 256) :
    hexToUint8Array (uint8ArrayToHex b) = b ∧
    (uint8ArrayToHex b).length = 2 * b.length ∧
    (uint8ArrayToHex b).data.all isLowerHexChar = true :=
  ⟨hexToUint8Array_roundtrip b h, uint8ArrayToHex_length b h, uint8ArrayToHex_lower b h⟩

/-- Witness for C7 at the 48-byte all-zero sequence and the empty sequence. -/
theorem witness_C7 :
    (∀ x ∈ List.replicate 48 (0 : Nat), x < 256) ∧
    hexToUint8Array (uint8ArrayToHex (List.replicate 48 0)) = List.replicate 48 0 ∧
    hexToUint8Array (uint8ArrayToHex []) = [] :=
  ⟨by decide, (claim_C7 (List.replicate 48 0) (by decide)).1,
    (claim_C7 [] (by decide)).1⟩

/-- Claim C8: the decoder scans greedily for two-character hex pairs,
case-insensitively: a non-hex head character is skipped; a leading valid
pair is consumed as one byte; a string with no two adjacent hex digits
decodes to the empty sequence (the decoder is total, never an error); and
uppercasing an encoded string decodes to the same bytes. -/
theorem claim_C8 :
    (∀ (c : Char) (l : List Char), isHexDigitChar c = false →
      hexToUint8Array (String.mk (c :: l)) = hexToUint8Array (String.mk l)) ∧
    (∀ (c1 c2 : Char) (l : List Char), isHexDigitChar c1 = true → isHexDigitChar c2 = true →
      hexToUint8Array (String.mk (c1 :: c2 :: l)) =
        (16 * hexDigitVal c1 + hexDigitVal c2) :: hexToUint8Array (String.mk l)) ∧
    (∀ s : String,
      (s.data.zip s.data.tail).all (fun p => !(isHexDigitChar p.1 && isHexDigitChar p.2)) =
        true → hexToUint8Array s = []) ∧
    (∀ a : List Nat, (∀ x ∈ a, x < 256) →
      hexToUint8Array (String.mk ((uint8ArrayToHex a).data.map Char.toUpper)) = a) := by
  refine ⟨fun c l hc => ?_, fun c1 c2 l h1 h2 => ?_, fun s h => ?_,
    hexToUint8Array_upper_roundtrip⟩
  · show hexPairsGo (c :: l).length (c :: l) = hexPairsGo l.length l
    rw [List.length_cons]
    exact hexPairsGo_skip c l hc l.length
  · show hexPairsGo (c1 :: c2 :: l).length (c1 :: c2 :: l) =
      (16 * hexDigitVal c1 + hexDigitVal c2) :: hexPairsGo l.length l
    rw [List.length_cons, List.length_cons,
      hexPairsGo_take c1 c2 l h1 h2 (l.length + 1)]
    exact congrArg _ (hexPairsGo_fuel (l.length + 1) l l.length (by omega) (Nat.le_refl _))
  · exact hexPairsGo_nopairs _ _ h

/-- Witness for C8: a skipped junk character and an all-junk string. -/
theorem witness_C8 :
    isHexDigitChar 'z' = false ∧
    hexToUint8Array (String.mk ['z', 'a', 'b']) = hexToUint8Array (String.mk ['a', 'b']) ∧
    hexToUint8Array "zgz" = [] :=
  ⟨by decide, claim_C8.1 'z' ['a', 'b'] (by decide), claim_C8.2.2.1 "zgz" (by decide)⟩

/-- Claim C9: for every event name, `calcDigest` of the empty value is the
empty string (the not-yet-available sentinel), and of any non-empty value
is a string of exactly 96 hex characters. -/
theorem claim_C9 (name value : String) (h : value ≠ "") :
    calcDigest name "" = "" ∧
    (calcDigest name value).length = 96 ∧
    (calcDigest name value).data.all isLowerHexChar = true := by
  refine ⟨rfl, ?_, ?_⟩
  · rw [calcDigest_eq name value h]
    exact (hexSha384_facts _).1
  · rw [calcDigest_eq name value h]
    exact (hexSha384_facts _).2.1

/-- Witness for C9 at a concrete name and value. -/
theorem witness_C9 :
    ("00" : String) ≠ "" ∧ calcDigest "app-id" "" = "" ∧
    (calcDigest "app-id" "00").length = 96 :=
  ⟨by decide, (claim_C9 "app-id" "00" (by decide)).1,
    (claim_C9 "app-id" "00" (by decide)).2.1⟩

/-- Claim C10: every non-blank text that parses as a JSON primitive
(number, boolean or null) hashes to one fixed value: the SHA-256 of the
serialization of the document holding only an empty `docker_config`
(spreading a primitive contributes no fields). -/
theorem claim_C10 (t : String) (v : Json) (hb : isBlank t = false)
    (hp : jsonParse t = some v) (hprim : Json.isPrimitive v = true) :
    getComposeHash t = uint8ArrayToHex (sha256 (utf8Bytes (jsonStringify
      (Json.obj [("docker_config", Json.obj [])])))) := by
  have _ := hb
  rw [getComposeHash_parsed t v hp, spreadFields_primitive v hprim,
    jsInsert_fresh [] ("docker_config", Json.obj []) rfl (by decide)]
  rfl

/-- Witness for C10 at the texts `5` and `true`. -/
theorem witness_C10 :
    isBlank "5" = false ∧ jsonParse "5" = some (Json.num "5") ∧
    Json.isPrimitive (Json.num "5") = true ∧
    getComposeHash "5" = uint8ArrayToHex (sha256 (utf8Bytes (jsonStringify
      (Json.obj [("docker_config", Json.obj [])])))) ∧
    getComposeHash "true" = uint8ArrayToHex (sha256 (utf8Bytes (jsonStringify
      (Json.obj [("docker_config", Json.obj [])])))) :=
  ⟨rfl, rfl, rfl, claim_C10 "5" (Json.num "5") rfl rfl rfl,
    claim_C10 "true" (Json.bool true) rfl rfl rfl⟩

end RTMR3
